import Mathlib

/-!
Verification of the derived-state utilities of the `wcomposables` repository.

The development shallowly embeds the relevant source modules:

* `src/data/utils/useSort.ts` — the sort stage (`useSort`, `sortedItems`,
  `clearSort`).  JavaScript arrays of values are modelled as Lean lists;
  `Array.prototype.sort` is modelled as a stable comparison sort (ECMAScript
  2019+ requires sort stability), concretely a left-to-right stable insertion
  sort: a later element is inserted after every earlier element the comparator
  does not place strictly below.
* the mounted/unmounted listener wiring of `useScroll`, `useWindowSize` and
  `useIdle` — the browser event-listener registry is modelled as a list of
  (event type, handler identity) pairs; `addEventListener` ignores an exact
  duplicate registration and `removeEventListener` erases the registration,
  exactly as `EventTarget` does.
* the `read` closure of `useLocalStorage` — exceptions are modelled with
  `Except`, `localStorage.getItem` by its outcome, and the `onError` callback
  by the reported-error component of the result.
* `useGenerator` (`next`, `reset`, construction) — the two refs `current` and
  `history` form an explicit state, calls are a step function over it.
* the pagination setters of `useTable` — the `useTable` implementation itself
  is not part of the sources, only its caller; it is modelled from the spec.
-/

/-- One step of the stable insertion sort modelling `Array.prototype.sort`:
insert `x` (a later element of the array) in front of the first element `y`
that the comparator places strictly above it (`c x y < 0`); ties and
smaller elements are passed over, which preserves stability. -/
def jsInsert {α : Type} (c : α → α → Int) (x : α) : List α → List α
  | [] => [x]
  | y :: ys => if c x y < 0 then x :: y :: ys else y :: jsInsert c x ys

/-- `Array.prototype.sort(compareFn)` modelled as a stable comparison sort:
the elements are inserted left to right into an initially empty array. -/
def jsSort {α : Type} (c : α → α → Int) (l : List α) : List α :=
  l.foldl (fun acc x => jsInsert c x acc) []

/-- A JavaScript spread `[...items]` builds a fresh array holding the same
elements; on lists of values it is the identity on contents. -/
def spreadCopy {α : Type} (l : List α) : List α := l

/-- `sortOrder` values of `useSort`: `'asc' | 'desc'`. -/
inductive SortOrder where
  | asc
  | desc
  deriving DecidableEq

/-- The `SortOption` interface of `useSort.ts` (`key`, `label`).  Its optional
`compareFn` member is never read anywhere in the module (options are only
stored in and removed from the `sortOptions` list), so it is not modelled. -/
structure SortOption where
  key : String
  label : String
  deriving DecidableEq

/-- The state of one `useSort<T>(items, compareFn?)` instance: the captured
arguments together with the four refs created in the composable body.
`keyof T` is modelled as `String`. -/
structure UseSortState (α : Type) where
  items : List α
  compareFn : Option (α → α → Int)
  sortBy : Option String
  sortOrder : SortOrder
  currentSort : Option (String × SortOrder)
  sortOptions : List SortOption

/-- One evaluation of the `sortedItems` computed body, from
`useSort.ts` lines 15–18:

- with no `compareFn`, the value is `[...items]`;
- with a `compareFn`, the value is `[...items].sort(compareFn)` — `.sort`
  is invoked on the fresh spread copy, never on `items`.

The first component is the computed value; the second component is the
caller's `items` array after the evaluation (the in-place `.sort` only ever
targets the copy, so `items` comes through untouched). -/
def sortedItemsRun {α : Type} (items : List α) (compareFn : Option (α → α → Int)) :
    List α × List α :=
  match compareFn with
  | none => (spreadCopy items, items)
  | some c => (jsSort c (spreadCopy items), items)

/-- The value of the `sortedItems` computed property. -/
def sortedItems {α : Type} (items : List α) (compareFn : Option (α → α → Int)) : List α :=
  (sortedItemsRun items compareFn).1

/-- `sortedItems` read off a full `useSort` instance state. -/
def sortedItemsOf {α : Type} (s : UseSortState α) : List α :=
  sortedItems s.items s.compareFn

/-- `clearSort` from `useSort.ts` lines 20–24: resets `sortBy`, `sortOrder`
and `currentSort`; `items`, `compareFn` and `sortOptions` are untouched. -/
def clearSort {α : Type} (s : UseSortState α) : UseSortState α :=
  { s with sortBy := none, sortOrder := SortOrder.asc, currentSort := none }

/-- The comparator `(a, b) => a - b` used by the repository's numeric sort
tests; a consistent comparator in the ECMAScript sense. -/
def intCompare : Int → Int → Int := fun a b => a - b

/-- A constant comparator that claims every element is below every other;
inconsistent in the ECMAScript sense. -/
def alwaysBelow : Int → Int → Int := fun _ _ => -1

/-- The `useSort` instance of claim C1's failing input: the ages column
`[30, 25, 35]`, no custom comparator, the key `"age"` active, ascending. -/
def useSortStateKeyActive : UseSortState Int :=
  { items := [30, 25, 35], compareFn := none, sortBy := some "age",
    sortOrder := SortOrder.asc, currentSort := none, sortOptions := [] }

/-- The `useSort` instance of claim C3's failing input: items `[2, 1]`, the
numeric comparator supplied, no active sort key. -/
def useSortStateNoKey : UseSortState Int :=
  { items := [2, 1], compareFn := some intCompare, sortBy := none,
    sortOrder := SortOrder.asc, currentSort := none, sortOptions := [] }

/-- A concrete instance state for exercising C2: key `"age"` active,
descending. -/
def useSortStateA : UseSortState Int :=
  { items := [3, 1, 2], compareFn := some intCompare, sortBy := some "age",
    sortOrder := SortOrder.desc, currentSort := some ("age", SortOrder.desc),
    sortOptions := [] }

/-- The C2 partner state of `useSortStateA`: identical `items` and
`compareFn`, all sort state cleared. -/
def useSortStateB : UseSortState Int :=
  { items := [3, 1, 2], compareFn := some intCompare, sortBy := none,
    sortOrder := SortOrder.asc, currentSort := none, sortOptions := [] }

/-- The browser event-listener registry: (event type, handler identity)
pairs in registration order.  `EventTarget.addEventListener` ignores a call
whose (type, callback) pair is already registered. -/
def addEventListener (r : List (String × Nat)) (t : String) (h : Nat) :
    List (String × Nat) :=
  if (t, h) ∈ r then r else r ++ [(t, h)]

/-- `EventTarget.removeEventListener` drops the (type, callback)
registration if present. -/
def removeEventListener (r : List (String × Nat)) (t : String) (h : Nat) :
    List (String × Nat) :=
  r.erase (t, h)

/-- The `onMounted` hook of `useScroll` (effect on the target's listener
registry): registers `updateScrollState` — identified by `h` — for
`'scroll'`.  The initial `updateScrollState()` call only touches the
composable's own refs, not the registry. -/
def useScrollMounted (r : List (String × Nat)) (h : Nat) : List (String × Nat) :=
  addEventListener r "scroll" h

/-- The `onUnmounted` hook of `useScroll`: removes the same
`updateScrollState` handler for `'scroll'` (the `clearTimeout` does not
touch the registry). -/
def useScrollUnmounted (r : List (String × Nat)) (h : Nat) : List (String × Nat) :=
  removeEventListener r "scroll" h

/-- The `onMounted` hook of `useWindowSize`: registers `updateSize` —
identified by `h` — for `'resize'` on the window. -/
def useWindowSizeMounted (r : List (String × Nat)) (h : Nat) : List (String × Nat) :=
  addEventListener r "resize" h

/-- The `onUnmounted` hook of `useWindowSize`: removes the same `updateSize`
handler for `'resize'`. -/
def useWindowSizeUnmounted (r : List (String × Nat)) (h : Nat) : List (String × Nat) :=
  removeEventListener r "resize" h

/-- The default activity-event list of `useIdle`. -/
def useIdleDefaultEvents : List String :=
  ["mousedown", "mousemove", "keypress", "scroll", "touchstart", "click"]

/-- The `onMounted` hook of `useIdle` (registry effect): registers
`handleActivity` — identified by `h` — for every event of `events` on the
document. -/
def useIdleMounted (r : List (String × Nat)) (events : List String) (h : Nat) :
    List (String × Nat) :=
  events.foldl (fun acc e => addEventListener acc e h) r

/-- The `onUnmounted` hook of `useIdle`: removes the same `handleActivity`
handler for every event of `events`. -/
def useIdleUnmounted (r : List (String × Nat)) (events : List String) (h : Nat) :
    List (String × Nat) :=
  events.foldl (fun acc e => removeEventListener acc e h) r

/-- The default serializer's `read` of `useLocalStorage`:
`try { return JSON.parse(value) } catch { return defaultValue }`.
`JSON.parse` is a platform function, passed in as `jsonParse`; a parse
failure is caught internally and yields `defaultValue`, so the default
serializer itself never throws. -/
def defaultSerializerRead {T E : Type} (jsonParse : String → Except E T)
    (defaultValue : T) (value : String) : Except E T :=
  match jsonParse value with
  | Except.ok v => Except.ok v
  | Except.error _ => Except.ok defaultValue

/-- The `read` closure of `useLocalStorage` (lines 34–45): the whole body is
wrapped in `try`/`catch`; a `null` from `localStorage.getItem` yields
`defaultValue`; a throw from `getItem` or from `serializer.read` is routed
to `onError` and yields `defaultValue`.  The first component is the value
returned, the second the error reported to `onError` (if any). -/
def useLocalStorageRead {T E : Type} (getItemResult : Except E (Option String))
    (serializerRead : String → Except E T) (defaultValue : T) : T × Option E :=
  match getItemResult with
  | Except.error e => (defaultValue, some e)
  | Except.ok none => (defaultValue, none)
  | Except.ok (some rawValue) =>
    match serializerRead rawValue with
    | Except.error e => (defaultValue, some e)
    | Except.ok v => (v, none)

/-- The state of one `useGenerator` instance: the refs `current` and
`history`. -/
structure GenState (α : Type) where
  current : α
  history : List α
  deriving DecidableEq

/-- Construction of a `useGenerator` instance whose `initial` option is
present: `current = ref(initial as T)` and
`history = ref(initial ? [initial] : [])` — the history seed uses JavaScript
truthiness, passed in as `truthyInitial`. -/
def genInit {α : Type} (initial : α) (truthyInitial : Bool) : GenState α :=
  { current := initial, history := if truthyInitial then [initial] else [] }

/-- `next` from `useGenerator` (lines 193–198): computes
`getNext(current)`, stores it in `current`, pushes it onto `history` and
returns it. -/
def genNext {α : Type} (getNext : α → α) (s : GenState α) : α × GenState α :=
  let nextValue := getNext s.current
  (nextValue, { current := nextValue, history := s.history ++ [nextValue] })

/-- `reset` from `useGenerator` (lines 200–211): with an argument, jump to
it; otherwise fall back to the captured `initial` option; with neither,
advance `current` by `getNext`.  In every branch `history` becomes the
one-element list holding the new `current`. -/
def genReset {α : Type} (getNext : α → α) (initial : Option α) (value : Option α)
    (s : GenState α) : GenState α :=
  match value with
  | some v => { current := v, history := [v] }
  | none =>
    match initial with
    | some i => { current := i, history := [i] }
    | none =>
      let c := getNext s.current
      { current := c, history := [c] }

/-- A call against a `useGenerator` instance: `next()` or `reset(value?)`. -/
inductive GenCall (α : Type) where
  | next : GenCall α
  | reset : Option α → GenCall α

/-- The state after one call. -/
def genStep {α : Type} (getNext : α → α) (initial : Option α) (c : GenCall α)
    (s : GenState α) : GenState α :=
  match c with
  | GenCall.next => (genNext getNext s).2
  | GenCall.reset v => genReset getNext initial v s

/-- The state after a sequence of calls. -/
def genRun {α : Type} (getNext : α → α) (initial : Option α)
    (calls : List (GenCall α)) (s : GenState α) : GenState α :=
  calls.foldl (fun st c => genStep getNext initial c st) s

/-- The invariant of claim C10: `history` is non-empty and its last element
is `current`. -/
def genInv {α : Type} (s : GenState α) : Prop :=
  s.history ≠ [] ∧ s.history.getLast? = some s.current

/-- Modelled from the spec: the `useTable` implementation is not among the
sources (only the demo component that calls it), so its pagination is
modelled from spec §4.3: total page count is
`ceil(totalItems / pageSize)`, with a minimum of 1 page even when empty. -/
def totalPagesCalc (totalItems pageSize : Nat) : Nat :=
  max 1 ((totalItems + pageSize - 1) / pageSize)

/-- Modelled from the spec: navigation clamps the requested page into
`[1, totalPages]` rather than erroring on out-of-range requests. -/
def clampPage (n : Int) (tp : Nat) : Int :=
  min (max n 1) (tp : Int)

/-- Pagination state per spec §3: 1-based `currentPage` plus `pageSize`;
`totalPages` is derived, never stored. -/
structure PaginationState where
  currentPage : Int
  pageSize : Nat

/-- Modelled from the spec: `setPage(n)` stores the requested page clamped
into `[1, totalPages]` for the current result-set size. -/
def setPage (n : Int) (totalItems : Nat) (s : PaginationState) : PaginationState :=
  { s with currentPage := clampPage n (totalPagesCalc totalItems s.pageSize) }

/-- The order the comparator `c` induces on array positions: `u` (earlier)
may stand before `v` (later) when the comparator does not place `v`
strictly below `u`. -/
def cmpGe {α : Type} (c : α → α → Int) (u v : α) : Prop :=
  0 ≤ c v u

theorem jsInsert_perm {α : Type} (c : α → α → Int) (x : α) :
    ∀ l : List α, List.Perm (jsInsert c x l) (x :: l) := by
  intro l
  induction l with
  | nil => simp [jsInsert]
  | cons y ys ih =>
    by_cases h : c x y < 0
    · simp [jsInsert, h]
    · simp only [jsInsert, if_neg h]
      exact (ih.cons y).trans (List.Perm.swap x y ys)

theorem mem_jsInsert {α : Type} (c : α → α → Int) (x b : α) (l : List α) :
    b ∈ jsInsert c x l ↔ b = x ∨ b ∈ l := by
  rw [(jsInsert_perm c x l).mem_iff, List.mem_cons]

theorem jsSort_perm {α : Type} (c : α → α → Int) (l : List α) :
    List.Perm (jsSort c l) l := by
  suffices h : ∀ (l acc : List α),
      List.Perm (l.foldl (fun a x => jsInsert c x a) acc) (acc ++ l) by
    simpa using h l []
  intro l
  induction l with
  | nil => intro acc; simp
  | cons x l ih =>
    intro acc
    have step : (x :: l).foldl (fun a x => jsInsert c x a) acc
        = l.foldl (fun a x => jsInsert c x a) (jsInsert c x acc) := rfl
    rw [step]
    have p1 := ih (jsInsert c x acc)
    have p2 : List.Perm (jsInsert c x acc ++ l) (x :: (acc ++ l)) :=
      (jsInsert_perm c x acc).append_right l
    have p3 : List.Perm (x :: (acc ++ l)) (acc ++ x :: l) := List.perm_middle.symm
    exact p1.trans (p2.trans p3)

theorem jsInsert_pairwise {α : Type} {c : α → α → Int}
    (h1 : ∀ a b, c a b < 0 → 0 ≤ c b a)
    (h2 : ∀ a b d, 0 ≤ c a b → 0 ≤ c b d → 0 ≤ c a d)
    (x : α) {l : List α} (hl : List.Pairwise (cmpGe c) l) :
    List.Pairwise (cmpGe c) (jsInsert c x l) := by
  induction l with
  | nil => simp [jsInsert, List.pairwise_singleton]
  | cons y ys ih =>
    rcases List.pairwise_cons.1 hl with ⟨hy, hys⟩
    by_cases h : c x y < 0
    · simp only [jsInsert, if_pos h]
      refine List.pairwise_cons.2 ⟨?_, hl⟩
      intro b hb
      rcases List.mem_cons.1 hb with rfl | hb
      · exact h1 x b h
      · exact h2 b y x (hy b hb) (h1 x y h)
    · simp only [jsInsert, if_neg h]
      refine List.pairwise_cons.2 ⟨?_, ih hys⟩
      intro b hb
      rcases (mem_jsInsert c x b ys).1 hb with rfl | hb
      · exact le_of_not_lt h
      · exact hy b hb

theorem jsSort_pairwise {α : Type} {c : α → α → Int}
    (h1 : ∀ a b, c a b < 0 → 0 ≤ c b a)
    (h2 : ∀ a b d, 0 ≤ c a b → 0 ≤ c b d → 0 ≤ c a d)
    (l : List α) : List.Pairwise (cmpGe c) (jsSort c l) := by
  suffices h : ∀ (l acc : List α), List.Pairwise (cmpGe c) acc →
      List.Pairwise (cmpGe c) (l.foldl (fun a x => jsInsert c x a) acc) from
    h l [] List.Pairwise.nil
  intro l
  induction l with
  | nil => intro acc hacc; exact hacc
  | cons x l ih => intro acc hacc; exact ih _ (jsInsert_pairwise h1 h2 x hacc)

theorem jsInsert_of_forall_le {α : Type} (c : α → α → Int) (x : α) :
    ∀ l : List α, (∀ y ∈ l, 0 ≤ c x y) → jsInsert c x l = l ++ [x] := by
  intro l
  induction l with
  | nil => intro _; rfl
  | cons y ys ih =>
    intro hall
    have hy : ¬ c x y < 0 := not_lt.2 (hall y (List.mem_cons_self y ys))
    simp only [jsInsert, if_neg hy, List.cons_append, List.cons.injEq, true_and]
    exact ih (fun z hz => hall z (List.mem_cons_of_mem y hz))

theorem jsSort_of_pairwise {α : Type} {c : α → α → Int} {l : List α}
    (hl : List.Pairwise (cmpGe c) l) : jsSort c l = l := by
  suffices h : ∀ (l acc : List α), List.Pairwise (cmpGe c) (acc ++ l) →
      l.foldl (fun a x => jsInsert c x a) acc = acc ++ l by
    simpa using h l [] (by simpa using hl)
  intro l
  induction l with
  | nil => intro acc _; simp
  | cons x l ih =>
    intro acc hacc
    have hins : jsInsert c x acc = acc ++ [x] := by
      refine jsInsert_of_forall_le c x acc ?_
      intro y hy
      have := (List.pairwise_append.1 hacc).2.2 y hy x (List.mem_cons_self x l)
      exact this
    calc (x :: l).foldl (fun a x => jsInsert c x a) acc
        = l.foldl (fun a x => jsInsert c x a) (jsInsert c x acc) := rfl
      _ = l.foldl (fun a x => jsInsert c x a) (acc ++ [x]) := by rw [hins]
      _ = (acc ++ [x]) ++ l := ih (acc ++ [x]) (by simpa using hacc)
      _ = acc ++ x :: l := by simp

theorem jsSort_idem {α : Type} {c : α → α → Int}
    (h1 : ∀ a b, c a b < 0 → 0 ≤ c b a)
    (h2 : ∀ a b d, 0 ≤ c a b → 0 ≤ c b d → 0 ≤ c a d)
    (l : List α) : jsSort c (jsSort c l) = jsSort c l :=
  jsSort_of_pairwise (jsSort_pairwise h1 h2 l)

theorem erase_append_singleton {α : Type} [BEq α] [LawfulBEq α] (a : α) :
    ∀ l : List α, a ∉ l → (l ++ [a]).erase a = l := by
  intro l
  induction l with
  | nil => simp
  | cons b l ih =>
    intro h
    have hb : ¬ (b == a) = true := by
      simp only [beq_iff_eq]
      intro e
      exact h (by simp [e])
    have hl : a ∉ l := fun hm => h (List.mem_cons_of_mem b hm)
    simp only [List.cons_append]
    rw [List.erase_cons_tail hb, ih hl]

theorem erase_append_of_not_mem {α : Type} [BEq α] [LawfulBEq α] (a : α) (l2 : List α) :
    ∀ l1 : List α, a ∉ l1 → (l1 ++ l2).erase a = l1 ++ l2.erase a := by
  intro l1
  induction l1 with
  | nil => simp
  | cons b l ih =>
    intro h
    have hb : ¬ (b == a) = true := by
      simp only [beq_iff_eq]
      intro e
      exact h (by simp [e])
    have hl : a ∉ l := fun hm => h (List.mem_cons_of_mem b hm)
    simp only [List.cons_append]
    rw [List.erase_cons_tail hb, ih hl]

theorem add_remove_listener (r : List (String × Nat)) (t : String) (h : Nat)
    (hfresh : (t, h) ∉ r) :
    removeEventListener (addEventListener r t h) t h = r := by
  unfold addEventListener removeEventListener
  rw [if_neg hfresh]
  exact erase_append_singleton _ r hfresh

theorem useIdleMounted_eq (h : Nat) :
    ∀ (events : List String) (r : List (String × Nat)), events.Nodup →
      (∀ e ∈ events, (e, h) ∉ r) →
      useIdleMounted r events h = r ++ events.map (fun e => (e, h)) := by
  intro events
  induction events with
  | nil => intro r _ _; simp [useIdleMounted]
  | cons e es ih =>
    intro r hnd hfresh
    have hne : (e, h) ∉ r := hfresh e (List.mem_cons_self e es)
    have hnd' := List.nodup_cons.1 hnd
    have step : useIdleMounted r (e :: es) h = useIdleMounted (r ++ [(e, h)]) es h := by
      simp [useIdleMounted, addEventListener, hne]
    rw [step, ih (r ++ [(e, h)]) hnd'.2 ?_]
    · simp
    · intro e2 he2
      simp only [List.mem_append, List.mem_singleton, not_or]
      refine ⟨hfresh e2 (List.mem_cons_of_mem e he2), ?_⟩
      intro hpair
      have : e2 = e := congrArg Prod.fst hpair
      exact hnd'.1 (this ▸ he2)

theorem useIdleUnmounted_eq (h : Nat) :
    ∀ (events : List String) (r : List (String × Nat)), events.Nodup →
      (∀ e ∈ events, (e, h) ∉ r) →
      useIdleUnmounted (r ++ events.map (fun e => (e, h))) events h = r := by
  intro events
  induction events with
  | nil => intro r _ _; simp [useIdleUnmounted]
  | cons e es ih =>
    intro r hnd hfresh
    have hne : (e, h) ∉ r := hfresh e (List.mem_cons_self e es)
    have hnd' := List.nodup_cons.1 hnd
    have step : useIdleUnmounted (r ++ (e, h) :: es.map (fun e2 => (e2, h))) (e :: es) h
        = useIdleUnmounted
            ((r ++ (e, h) :: es.map (fun e2 => (e2, h))).erase (e, h)) es h := rfl
    simp only [List.map_cons, step]
    rw [erase_append_of_not_mem (e, h) _ r hne, List.erase_cons_head]
    exact ih r hnd'.2 (fun e2 he2 => hfresh e2 (List.mem_cons_of_mem e he2))

theorem genStep_inv {α : Type} (g : α → α) (i : Option α) (c : GenCall α)
    (s : GenState α) : genInv (genStep g i c s) := by
  cases c with
  | next =>
    refine ⟨by simp [genStep, genNext], ?_⟩
    simp [genStep, genNext, List.getLast?_concat]
  | reset v =>
    cases v with
    | some w => exact ⟨by simp [genStep, genReset], by simp [genStep, genReset]⟩
    | none =>
      cases i with
      | some j => exact ⟨by simp [genStep, genReset], by simp [genStep, genReset]⟩
      | none => exact ⟨by simp [genStep, genReset], by simp [genStep, genReset]⟩

theorem genRun_inv {α : Type} (g : α → α) (i : Option α) :
    ∀ (calls : List (GenCall α)) (s : GenState α), calls ≠ [] →
      genInv (genRun g i calls s) := by
  intro calls
  induction calls with
  | nil => intro s h; exact absurd rfl h
  | cons c cs ih =>
    intro s _
    cases cs with
    | nil => exact genStep_inv g i c s
    | cons c2 cs2 => exact ih (genStep g i c s) (by simp)

/-- C1: the claim says that with an active sort key and no custom comparator,
`sortedItems` orders the collection by the key's field values.  Evaluating
the code at the failing input — ages `[30, 25, 35]`, key `"age"` active,
ascending, no comparator — shows `sortedItems` returns the collection in its
original order, not ordered by the field: the computed body ignores `sortBy`
and `sortOrder` and, with no `compareFn`, returns a plain copy. -/
theorem useSort_ignores_active_key :
    sortedItemsOf useSortStateKeyActive = [30, 25, 35]
  ∧ sortedItemsOf useSortStateKeyActive ≠ [25, 30, 35] := by
  exact ⟨rfl, by decide⟩

/-- C2: `sortedItems` depends only on `items` and `compareFn`: two instance
states agreeing on those produce the same `sortedItems`, whatever their
`sortBy`, `sortOrder` and `currentSort`; `clearSort` leaves `sortedItems`
unchanged. -/
theorem sortedItems_state_independent {α : Type} :
    (∀ s t : UseSortState α, s.items = t.items → s.compareFn = t.compareFn →
      sortedItemsOf s = sortedItemsOf t)
  ∧ ∀ s : UseSortState α, sortedItemsOf (clearSort s) = sortedItemsOf s := by
  constructor
  · intro s t hi hc
    simp [sortedItemsOf, hi, hc]
  · intro s
    rfl

/-- Witness for C2 at concrete states differing only in sort state. -/
theorem sortedItems_state_independent_witness :
    sortedItemsOf useSortStateA = sortedItemsOf useSortStateB
  ∧ sortedItemsOf (clearSort useSortStateA) = sortedItemsOf useSortStateA :=
  ⟨sortedItems_state_independent.1 useSortStateA useSortStateB rfl rfl,
   sortedItems_state_independent.2 useSortStateA⟩

/-- C3: the claim says that with no active sort key the sort stage is the
identity on contents.  Evaluating the code at the failing input — items
`[2, 1]`, the numeric comparator supplied, `sortBy` cleared — shows the
stage still sorts: whenever a comparator is supplied the computed body
sorts the copy, active key or not. -/
theorem useSort_sorts_without_active_key :
    sortedItemsOf useSortStateNoKey = [1, 2]
  ∧ sortedItemsOf useSortStateNoKey ≠ [2, 1] := by
  exact ⟨by decide, by decide⟩

/-- C4: evaluating `sortedItems` leaves the input array unchanged: the
in-place `.sort` is only ever invoked on the spread copy, so the `items`
component after an evaluation equals the input. -/
theorem sortedItems_run_preserves_items {α : Type} (items : List α)
    (cmp : Option (α → α → Int)) :
    (sortedItemsRun items cmp).2 = items := by
  cases cmp <;> rfl

/-- C5: for every collection and every comparator (including none), the
output of the sort stage is a permutation of the input, of equal length. -/
theorem sortedItems_perm_items {α : Type} (items : List α)
    (cmp : Option (α → α → Int)) :
    List.Perm (sortedItems items cmp) items
  ∧ (sortedItems items cmp).length = items.length := by
  have hp : List.Perm (sortedItems items cmp) items := by
    cases cmp with
    | none => exact List.Perm.refl _
    | some c => exact jsSort_perm c items
  exact ⟨hp, hp.length_eq⟩

/-- C6 counterexample: with the inconsistent comparator that puts every
element below every other, sorting `[1, 2]` yields `[2, 1]` and re-sorting
that output yields `[1, 2]` again — applying the sort stage to its own
output is not a no-op for an arbitrary comparator. -/
theorem sortedItems_idempotent_counterexample :
    sortedItems (sortedItems [1, 2] (some alwaysBelow)) (some alwaysBelow)
      ≠ sortedItems ([1, 2] : List Int) (some alwaysBelow) := by
  decide

/-- C6 (amended): for every collection and every consistent comparator —
one that is sign-antisymmetric (`c a b < 0 → 0 ≤ c b a`) and whose
non-negative relation is transitive — applying the sort stage to its own
output yields an element-wise equal array; with no comparator the stage is
a copy and idempotence is immediate. -/
theorem sortedItems_idempotent_of_consistent {α : Type} (items : List α)
    (cmp : Option (α → α → Int))
    (hcons : ∀ c, cmp = some c →
      (∀ a b, c a b < 0 → 0 ≤ c b a)
      ∧ (∀ a b d, 0 ≤ c a b → 0 ≤ c b d → 0 ≤ c a d)) :
    sortedItems (sortedItems items cmp) cmp = sortedItems items cmp := by
  cases cmp with
  | none => rfl
  | some c =>
    rcases hcons c rfl with ⟨h1, h2⟩
    exact jsSort_idem h1 h2 items

/-- Witness for C6's amended theorem at the numeric comparator. -/
theorem sortedItems_idempotent_of_consistent_witness :
    sortedItems (sortedItems [3, 1, 2] (some intCompare)) (some intCompare)
      = sortedItems ([3, 1, 2] : List Int) (some intCompare) :=
  sortedItems_idempotent_of_consistent [3, 1, 2] (some intCompare) (by
    intro c hc
    cases hc
    constructor
    · intro a b hab
      simp only [intCompare] at *
      omega
    · intro a b d hab hbd
      simp only [intCompare] at *
      omega)

/-- C7: `setPage` clamps the requested page into `[1, totalPages]`: a
request below 1 lands on page 1, a request above `totalPages` lands on
`totalPages`, and the stored page is always inside the interval. -/
theorem useTable_setPage_clamps (n : Int) (totalItems : Nat) (s : PaginationState) :
    (n < 1 → (setPage n totalItems s).currentPage = 1)
  ∧ ((totalPagesCalc totalItems s.pageSize : Int) < n →
      (setPage n totalItems s).currentPage = (totalPagesCalc totalItems s.pageSize : Int))
  ∧ 1 ≤ (setPage n totalItems s).currentPage
  ∧ (setPage n totalItems s).currentPage ≤ (totalPagesCalc totalItems s.pageSize : Int) := by
  have htp : 1 ≤ totalPagesCalc totalItems s.pageSize := le_max_left _ _
  have htp2 : (1 : Int) ≤ (totalPagesCalc totalItems s.pageSize : Int) := by
    exact_mod_cast htp
  simp only [setPage, clampPage]
  omega

/-- Witness for C7: a 12-row result at page size 5 has 3 pages; `setPage 0`
clamps to 1 and `setPage 999` clamps to 3. -/
theorem useTable_setPage_clamps_witness :
    (setPage 0 12 { currentPage := 1, pageSize := 5 }).currentPage = 1
  ∧ (setPage 999 12 { currentPage := 1, pageSize := 5 }).currentPage = 3 := by
  constructor
  · exact (useTable_setPage_clamps 0 12 { currentPage := 1, pageSize := 5 }).1 (by decide)
  · exact ((useTable_setPage_clamps 999 12 { currentPage := 1, pageSize := 5 }).2.1
      (by decide)).trans (by decide)

/-- C8: each composable deregisters in `onUnmounted` exactly the handler it
registered in `onMounted` (`updateScrollState` for `'scroll'` in
`useScroll`, `updateSize` for `'resize'` in `useWindowSize`,
`handleActivity` for each activity event in `useIdle`), so a mount followed
by an unmount restores the listener registry. -/
theorem listeners_removed_on_unmount :
    (∀ (r : List (String × Nat)) (hid : Nat), ("scroll", hid) ∉ r →
      useScrollUnmounted (useScrollMounted r hid) hid = r)
  ∧ (∀ (r : List (String × Nat)) (hid : Nat), ("resize", hid) ∉ r →
      useWindowSizeUnmounted (useWindowSizeMounted r hid) hid = r)
  ∧ ∀ (r : List (String × Nat)) (events : List String) (hid : Nat),
      events.Nodup → (∀ e ∈ events, (e, hid) ∉ r) →
      useIdleUnmounted (useIdleMounted r events hid) events hid = r := by
  refine ⟨?_, ?_, ?_⟩
  · intro r hid hfresh
    exact add_remove_listener r "scroll" hid hfresh
  · intro r hid hfresh
    exact add_remove_listener r "resize" hid hfresh
  · intro r events hid hnd hfresh
    rw [useIdleMounted_eq hid events r hnd hfresh]
    exact useIdleUnmounted_eq hid events r hnd hfresh

/-- Witness for C8 on the empty registry, with `useIdle`'s default activity
events. -/
theorem listeners_removed_on_unmount_witness :
    useScrollUnmounted (useScrollMounted [] 0) 0 = []
  ∧ useWindowSizeUnmounted (useWindowSizeMounted [] 0) 0 = []
  ∧ useIdleUnmounted (useIdleMounted [] useIdleDefaultEvents 0) useIdleDefaultEvents 0 = [] :=
  ⟨listeners_removed_on_unmount.1 [] 0 (by simp),
   listeners_removed_on_unmount.2.1 [] 0 (by simp),
   listeners_removed_on_unmount.2.2 [] useIdleDefaultEvents 0 (by decide) (by simp)⟩

/-- C9: the `read` of `useLocalStorage` is total and never propagates an
exception: a `null` from `getItem` yields `defaultValue` with no error
reported; a throw from `getItem` or from `serializer.read` is routed to
`onError` and yields `defaultValue`; a successful parse yields the parsed
value; and with the default serializer a stored text that fails JSON
parsing yields `defaultValue` without even reporting an error. -/
theorem useLocalStorage_read_total {T E : Type} (d : T) (sr : String → Except E T)
    (p : String → Except E T) :
    useLocalStorageRead (Except.ok none) sr d = (d, (none : Option E))
  ∧ (∀ e : E, useLocalStorageRead (Except.error e) sr d = (d, some e))
  ∧ (∀ (raw : String) (e : E), sr raw = Except.error e →
      useLocalStorageRead (Except.ok (some raw)) sr d = (d, some e))
  ∧ (∀ (raw : String) (v : T), sr raw = Except.ok v →
      useLocalStorageRead (Except.ok (some raw)) sr d = (v, none))
  ∧ ∀ (raw : String) (e : E), p raw = Except.error e →
      useLocalStorageRead (Except.ok (some raw)) (defaultSerializerRead p d) d
        = (d, none) := by
  refine ⟨rfl, fun e => rfl, ?_, ?_, ?_⟩
  · intro raw e h
    simp [useLocalStorageRead, h]
  · intro raw v h
    simp [useLocalStorageRead, h]
  · intro raw e h
    simp [useLocalStorageRead, defaultSerializerRead, h]

/-- Witness for C9 with a serializer that always throws and a JSON parse
that always fails. -/
theorem useLocalStorage_read_total_witness :
    useLocalStorageRead (Except.ok (some "oops"))
      (fun _ => (Except.error () : Except Unit Nat)) 7 = (7, some ())
  ∧ useLocalStorageRead (Except.ok (some "oops"))
      (defaultSerializerRead (fun _ => (Except.error () : Except Unit Nat)) 7) 7
      = (7, none)
  ∧ useLocalStorageRead (Except.ok none)
      (fun _ => (Except.error () : Except Unit Nat)) 7 = (7, none) :=
  ⟨(useLocalStorage_read_total 7 (fun _ => Except.error ()) (fun _ => Except.error ())).2.2.1
      "oops" () rfl,
   (useLocalStorage_read_total 7 (fun _ => Except.error ()) (fun _ => Except.error ())).2.2.2.2
      "oops" () rfl,
   (useLocalStorage_read_total 7 (fun _ => Except.error ()) (fun _ => Except.error ())).1⟩

/-- C10: after every call of a `next`/`reset` sequence the `useGenerator`
invariant holds — `history` is non-empty and its last element is `current`
— and each `next()` returns exactly the new `current`, which is `getNext`
of the previous `current`, extending `history` by exactly that element. -/
theorem useGenerator_invariant {α : Type} (g : α → α) (initial : Option α) :
    (∀ (calls : List (GenCall α)) (s : GenState α), calls ≠ [] →
      genInv (genRun g initial calls s))
  ∧ ∀ s : GenState α,
      (genNext g s).1 = g s.current
    ∧ (genNext g s).2.current = (genNext g s).1
    ∧ (genNext g s).2.history = s.history ++ [(genNext g s).1] := by
  refine ⟨genRun_inv g initial, ?_⟩
  intro s
  exact ⟨rfl, rfl, rfl⟩

/-- Witness for C10: a `next()` then a bare `reset()` on the instance
created with `initial = 0` (falsy, so the seeded history is empty). -/
theorem useGenerator_invariant_witness :
    genInv (genRun Nat.succ (some 0) [GenCall.next, GenCall.reset none]
      (genInit 0 false)) :=
  (useGenerator_invariant Nat.succ (some 0)).1
    [GenCall.next, GenCall.reset none] (genInit 0 false) (by simp)
